import Mathlib

/-!
Verification of the inventory costing core of the mobierp-retail-management-system
repository: the lot ledger, the FIFO/LIFO/AVERAGE cost calculation
(`calculate_sale_cost`), the allocation routine (`allocate_inventory_on_sale`),
the sale trigger (`check_and_allocate_inventory`), the stock-receipt triggers,
and the reporting valuation (`calculate_inventory_value`), all from
`src/add-fifo-lifo-support.sql`, `src/add-inventory-valuation-methods.sql` and
the client code in `src/unnamed/part_007`.

Modelling conventions:
* SQL `DECIMAL(10,2)` / `numeric(12,2)` money values are exact multiples of
  0.01, so they are embedded as integer cents (`ℤ`).  A PL/pgSQL assignment of
  a numeric expression to a `DECIMAL(10,2)` variable rounds half away from
  zero to two decimals; on cent values this is the identity, and at the two
  places where a genuine division occurs (the AVERAGE branch and the
  `cost_price` computation) it is modelled explicitly with `roundAway`
  applied to the exact rational quotient in cents.
* `INTEGER` quantities are `ℕ` (the schema checks `quantity > 0`,
  `remaining_quantity >= 0`).
* `TIMESTAMPTZ` is an abstract tick count `ℕ`; `id` columns are `ℕ`.
* A `RAISE EXCEPTION` aborts the enclosing transaction, so a failing routine
  is modelled as `Except` and the caller keeps the pre-call state (rollback).
-/

/-- A row of `inventory_purchases` (src/add-fifo-lifo-support.sql, section 2):
one receipt lot with its fixed unit cost (in cents) and its unconsumed
remainder. -/
structure Lot where
  id : ℕ
  productId : ℕ
  quantity : ℕ
  unitCost : ℤ
  remainingQuantity : ℕ
  purchasedAt : ℕ
deriving DecidableEq, Repr

/-- The `ORDER BY purchased_at ASC, id ASC` comparison used by the FIFO
branches of `calculate_sale_cost` and `allocate_inventory_on_sale`. -/
def fifoLE (a b : Lot) : Prop :=
  a.purchasedAt < b.purchasedAt ∨ (a.purchasedAt = b.purchasedAt ∧ a.id ≤ b.id)

/-- The `ORDER BY purchased_at DESC, id DESC` comparison used by the LIFO
branches of `calculate_sale_cost` and `allocate_inventory_on_sale`. -/
def lifoLE (a b : Lot) : Prop :=
  b.purchasedAt < a.purchasedAt ∨ (a.purchasedAt = b.purchasedAt ∧ b.id ≤ a.id)

instance (a b : Lot) : Decidable (fifoLE a b) := by unfold fifoLE; infer_instance

instance (a b : Lot) : Decidable (lifoLE a b) := by unfold lifoLE; infer_instance

instance : IsTotal Lot fifoLE where
  total a b := by
    unfold fifoLE
    rcases Nat.lt_trichotomy a.purchasedAt b.purchasedAt with h | h | h
    · exact Or.inl (Or.inl h)
    · rcases Nat.le_total a.id b.id with hi | hi
      · exact Or.inl (Or.inr ⟨h, hi⟩)
      · exact Or.inr (Or.inr ⟨h.symm, hi⟩)
    · exact Or.inr (Or.inl h)

instance : IsTrans Lot fifoLE where
  trans a b c hab hbc := by
    unfold fifoLE at *
    rcases hab with h1 | ⟨h1, i1⟩ <;> rcases hbc with h2 | ⟨h2, i2⟩
    · exact Or.inl (h1.trans h2)
    · exact Or.inl (h2 ▸ h1)
    · exact Or.inl (h1 ▸ h2)
    · exact Or.inr ⟨h1.trans h2, i1.trans i2⟩

instance : IsTotal Lot lifoLE where
  total a b := by
    unfold lifoLE
    rcases Nat.lt_trichotomy a.purchasedAt b.purchasedAt with h | h | h
    · exact Or.inr (Or.inl h)
    · rcases Nat.le_total a.id b.id with hi | hi
      · exact Or.inr (Or.inr ⟨h.symm, hi⟩)
      · exact Or.inl (Or.inr ⟨h, hi⟩)
    · exact Or.inl (Or.inl h)

instance : IsTrans Lot lifoLE where
  trans a b c hab hbc := by
    unfold lifoLE at *
    rcases hab with h1 | ⟨h1, i1⟩ <;> rcases hbc with h2 | ⟨h2, i2⟩
    · exact Or.inl (h2.trans h1)
    · exact Or.inl (h2 ▸ h1)
    · exact Or.inl (h1.symm ▸ h2)
    · exact Or.inr ⟨h1.trans h2, i2.trans i1⟩

/-- The `WHERE remaining_quantity > 0` filter of every lot query in
`calculate_sale_cost` / `allocate_inventory_on_sale`. -/
def unconsumed (lots : List Lot) : List Lot :=
  lots.filter fun l => 0 < l.remainingQuantity

/-- The ordered unconsumed-lot cursor of `allocate_inventory_on_sale`:
FIFO ascending, LIFO descending, and the ELSE (AVERAGE / fallback) branch
ascending like FIFO (src/add-fifo-lifo-support.sql lines 171-233). -/
def orderedLots (method : String) (lots : List Lot) : List Lot :=
  if method = "FIFO" then List.insertionSort fifoLE (unconsumed lots)
  else if method = "LIFO" then List.insertionSort lifoLE (unconsumed lots)
  else List.insertionSort fifoLE (unconsumed lots)

/-- Postgres `numeric` rounding: half away from zero, here to an integer
(used on values expressed in cents, i.e. rounding money to two decimals). -/
def roundAway (x : ℚ) : ℤ :=
  if 0 ≤ x then Int.floor (x + 1 / 2) else -Int.floor (-x + 1 / 2)

/-- The FIFO/LIFO cost loop of `calculate_sale_cost` (lines 106-134):
walk the ordered lots, allocate `LEAST(remaining_quantity, still_needed)`
from each, accumulate `allocated * unit_cost`, exit once nothing is still
needed (the exit test runs after the body, mirroring `EXIT WHEN`). -/
def costLoop : ℕ → ℤ → List Lot → ℤ
  | _, acc, [] => acc
  | need, acc, l :: rest =>
    let a := min l.remainingQuantity need
    let acc2 := acc + (a : ℤ) * l.unitCost
    if need - a = 0 then acc2 else costLoop (need - a) acc2 rest

/-- The `SELECT COALESCE(SUM(remaining_quantity * unit_cost) /
NULLIF(SUM(remaining_quantity), 0), 0)` of the AVERAGE branch of
`calculate_sale_cost` (lines 136-143), as an exact rational in cents. -/
def weightedAverageCost (lots : List Lot) : ℚ :=
  let u := unconsumed lots
  let rsum : ℕ := (u.map (·.remainingQuantity)).sum
  let wsum : ℤ := (u.map fun l => (l.remainingQuantity : ℤ) * l.unitCost).sum
  if rsum = 0 then 0 else (wsum : ℚ) / (rsum : ℚ)

/-- `calculate_sale_cost` (src/add-fifo-lifo-support.sql lines 89-150), with
the costing method passed in place of the `get_inventory_costing_method()`
call.  In the AVERAGE / fallback branch the quotient is assigned to the
`DECIMAL(10,2)` variable `v_total_cost` before the multiplication by
`p_quantity`, which rounds the weighted unit cost to whole cents first; the
final `ROUND(v_total_cost, 2)` is the identity on cent values. -/
def calculate_sale_cost (method : String) (lots : List Lot) (qty : ℕ) : ℤ :=
  if method = "FIFO" then costLoop qty 0 (List.insertionSort fifoLE (unconsumed lots))
  else if method = "LIFO" then costLoop qty 0 (List.insertionSort lifoLE (unconsumed lots))
  else roundAway (weightedAverageCost lots) * qty

/-- The typed failure of `allocate_inventory_on_sale`: `RAISE EXCEPTION
'Insufficient inventory to allocate. Missing: % units'` (line 237). -/
inductive AllocError where
  | insufficientInventoryHistory (missing : ℕ)
deriving DecidableEq, Repr

/-- The per-lot allocations of one walk of `allocate_inventory_on_sale`
(lines 180-190): each iteration allocates `LEAST(remaining_quantity,
still_needed)` and the `EXIT WHEN still_needed = 0` test runs after the
body. -/
def allocAmounts : ℕ → List Lot → List (ℕ × ℕ)
  | _, [] => []
  | need, l :: rest =>
    let a := min l.remainingQuantity need
    (l.id, a) :: (if need - a = 0 then [] else allocAmounts (need - a) rest)

/-- One `UPDATE inventory_purchases SET remaining_quantity =
remaining_quantity - allocated WHERE id = lot_id` (lines 183-185). -/
def applyOne (p : ℕ × ℕ) (l : Lot) : Lot :=
  if l.id = p.1 then { l with remainingQuantity := l.remainingQuantity - p.2 } else l

/-- The table after all the `UPDATE` statements of one allocation walk. -/
def applyAlloc (lots : List Lot) (ps : List (ℕ × ℕ)) : List Lot :=
  ps.foldl (fun ls p => ls.map (applyOne p)) lots

/-- `allocate_inventory_on_sale` (src/add-fifo-lifo-support.sql lines
157-240): walk the policy-ordered unconsumed lots decrementing them, then
raise if anything is still unallocated.  The raise aborts the transaction,
so the error case carries no state. -/
def allocate_inventory_on_sale (method : String) (lots : List Lot) (qty : ℕ) :
    Except AllocError (List Lot) :=
  let ps := allocAmounts qty (orderedLots method lots)
  let leftover := qty - (ps.map (·.2)).sum
  if 0 < leftover then .error (.insufficientInventoryHistory leftover)
  else .ok (applyAlloc lots ps)

/-- The lot table visible after `allocate_inventory_on_sale` returns to its
caller: on success the decremented table, on `RAISE EXCEPTION` the
transaction rolls back, so the original table. -/
def allocFinal (method : String) (lots : List Lot) (qty : ℕ) : List Lot :=
  match allocate_inventory_on_sale method lots qty with
  | .ok ls => ls
  | .error _ => lots

/-- Total unconsumed quantity of the ledger:
`SUM(remaining_quantity)` over all of the product's lots. -/
def totalRemaining (lots : List Lot) : ℕ :=
  (lots.map (·.remainingQuantity)).sum

/-- `get_inventory_costing_method()` (src/add-fifo-lifo-support.sql lines
71-82): look the key up in `system_settings`, `COALESCE` to FIFO when the
row is absent. -/
def get_inventory_costing_method (settings : List (String × String)) : String :=
  (settings.lookup "inventory_costing_method").getD "FIFO"

/-- A row of `sale_items` (src/services/supabase-db.ts lines 910-919):
`cost_price numeric(12,2)` is the recorded cost basis in cents. -/
structure SaleItem where
  id : ℕ
  quantity : ℕ
  costPrice : ℤ
deriving DecidableEq, Repr

/-- The state touched by the costing core, for one product: the active
policy row of `system_settings`, the product's `stock` and `cost` (cents),
its `inventory_purchases` rows and its recorded `sale_items`. -/
structure ShopState where
  method : String
  stock : ℕ
  cost : ℤ
  lots : List Lot
  saleItems : List SaleItem
deriving DecidableEq, Repr

/-- `NEW.cost_price := v_calculated_cost / NEW.quantity` of
`check_and_allocate_inventory` (line 297): exact numeric division of the
total (cents) by the quantity, stored into a `numeric(12,2)` column. -/
def costPriceOf (total : ℤ) (qty : ℕ) : ℤ :=
  roundAway ((total : ℚ) / (qty : ℚ))

/-- The `BEFORE INSERT ON sale_items` trigger `check_and_allocate_inventory`
(src/add-fifo-lifo-support.sql lines 272-314): re-check stock, price the
sale with `calculate_sale_cost`, allocate lots, decrement `products.stock`,
and insert the row with its computed `cost_price`.  Any raise aborts the
transaction, so the error case carries no state. -/
def check_and_allocate_inventory (s : ShopState) (itemId qty : ℕ) :
    Except String ShopState :=
  if s.stock < qty then .error "Insufficient stock"
  else
    let total := calculate_sale_cost s.method s.lots qty
    match allocate_inventory_on_sale s.method s.lots qty with
    | .error _ => .error "Insufficient inventory to allocate"
    | .ok ls =>
        .ok { s with
                lots := ls
                stock := s.stock - qty
                saleItems := s.saleItems ++ [⟨itemId, qty, costPriceOf total qty⟩] }

/-- The state visible after the sale transaction: the new state on success,
the untouched one on a raise (rollback). -/
def saleFinal (s : ShopState) (itemId qty : ℕ) : ShopState :=
  match check_and_allocate_inventory s itemId qty with
  | .ok s2 => s2
  | .error _ => s

/-- Modelled from the spec: `setPolicy` / `setInventoryMethod` updates only
the `inventory_costing_method` row of `system_settings` (the function body
is absent from src/; the repository docs name it in
services/supabase-db.ts, and the analogous `setInventoryDisplayOrder` in
src/unnamed/part_007 lines 580-590 performs exactly such a single-row
settings update).  It touches no `sale_items` row. -/
def setPolicy (s : ShopState) (p : String) : ShopState :=
  { s with method := p }

/-- Re-reading a recorded sale line's cost basis: a plain select of
`cost_price` from `sale_items` (src/services/supabase-db.ts). -/
def readSaleCost (s : ShopState) (itemId : ℕ) : Option ℤ :=
  (s.saleItems.find? fun it => it.id = itemId).map (·.costPrice)

/-- The `AFTER INSERT ON products` trigger
`record_initial_inventory_purchase` (src/add-fifo-lifo-support.sql lines
326-363): a freshly inserted product with positive stock gets one lot with
`remaining_quantity = stock` at the product's current cost. -/
def record_initial_inventory_purchase (method : String) (stock : ℕ) (cost : ℤ)
    (lotId t : ℕ) : ShopState :=
  { method := method, stock := stock, cost := cost
    lots := if 0 < stock then [⟨lotId, 0, stock, cost, stock, t⟩] else []
    saleItems := [] }

/-- An `UPDATE products SET stock = newStock` together with the
`AFTER UPDATE` trigger `record_inventory_purchase`
(src/add-fifo-lifo-support.sql lines 371-411): when the stock increases the
trigger inserts a lot for the difference at the product's current cost. -/
def record_inventory_purchase (s : ShopState) (newStock lotId t : ℕ) : ShopState :=
  if s.stock < newStock then
    { s with stock := newStock
             lots := s.lots ++ [⟨lotId, 0, newStock - s.stock, s.cost, newStock - s.stock, t⟩] }
  else { s with stock := newStock }

/-- The manual fallback path of `updateProductStock`
(src/unnamed/part_007 lines 132-191), run when the `add_product_stock` RPC
fails: it issues `UPDATE products SET stock = stock + additionalStock`
(on which the `record_purchase_on_stock_increase` trigger of
src/add-fifo-lifo-support.sql fires) and then itself inserts a second
`inventory_purchases` row for `additionalStock` at the product's cost. -/
def updateProductStock_fallback (s : ShopState) (additionalStock lotId1 lotId2 t : ℕ) :
    ShopState :=
  let s1 := record_inventory_purchase s (s.stock + additionalStock) lotId1 t
  { s1 with lots := s1.lots ++ [⟨lotId2, 0, additionalStock, s.cost, additionalStock, t⟩] }

/-- The central ledger invariant of the spec: the unconsumed lot quantities
of a product sum to its recorded stock. -/
def invariantHolds (s : ShopState) : Prop :=
  totalRemaining s.lots = s.stock

instance (s : ShopState) : Decidable (invariantHolds s) := by
  unfold invariantHolds; infer_instance

/-- The lot ordering of the FIFO branch of `calculate_inventory_value`
(src/add-inventory-valuation-methods.sql lines 101-141): the window
functions order by `purchased_at ASC` only. -/
def valuationAtLE (a b : Lot) : Prop := a.purchasedAt ≤ b.purchasedAt

instance (a b : Lot) : Decidable (valuationAtLE a b) := by
  unfold valuationAtLE; infer_instance

/-- The `allocated_costs` CASE of the FIFO branch of
`calculate_inventory_value`: walking lots oldest-first with the running
cumulative of their full `quantity`, a lot contributes `unit_cost *
quantity` while the cumulative stays within `current_qty`, a partial slice
when it straddles it, else nothing. -/
def fifoValueAux (stock : ℕ) : ℕ → List Lot → ℤ
  | _, [] => 0
  | cumBefore, l :: rest =>
    let cum := cumBefore + l.quantity
    (if cum ≤ stock then (l.quantity : ℤ) * l.unitCost
     else if cumBefore < stock then ((stock - cumBefore : ℕ) : ℤ) * l.unitCost
     else 0) + fifoValueAux stock cum rest

/-- The FIFO branch of `calculate_inventory_value`
(src/add-inventory-valuation-methods.sql lines 101-141) for one product:
`total_value` allocates the product's current stock against the lots'
full quantities, oldest first; `remaining_quantity` is not consulted. -/
def calculate_inventory_value_fifo (stock : ℕ) (lots : List Lot) : ℤ :=
  fifoValueAux stock 0 (List.insertionSort valuationAtLE lots)

/-- Stated from the spec, for comparison: FIFO valuation as the spec words
it, `sum(remainingQuantity_i * unitCost_i)` over the product's lots. -/
def specLotValuation (lots : List Lot) : ℤ :=
  (lots.map fun l => (l.remainingQuantity : ℤ) * l.unitCost).sum

/-- Stated from the spec, for comparison: the AVERAGE-policy sale cost as
the spec words it, `weightedUnitCost * quantitySold` rounded to two
decimals half-up, with `weightedUnitCost = sum(remainingQuantity_i *
unitCost_i) / sum(remainingQuantity_i)` exact. -/
def specAverageCost (lots : List Lot) (qty : ℕ) : ℤ :=
  roundAway (((specLotValuation lots : ℚ) / (totalRemaining lots : ℚ)) * (qty : ℚ))

example : calculate_sale_cost "FIFO"
    [⟨1, 0, 5, 1000, 5, 1⟩, ⟨2, 0, 5, 1200, 5, 2⟩] 8 = 8600 := by decide

example : calculate_sale_cost "LIFO"
    [⟨1, 0, 5, 1000, 5, 1⟩, ⟨2, 0, 5, 1200, 5, 2⟩] 8 = 9000 := by decide

example : allocate_inventory_on_sale "FIFO"
    [⟨1, 0, 5, 1000, 5, 1⟩, ⟨2, 0, 5, 1200, 5, 2⟩] 8 =
    .ok [⟨1, 0, 5, 1000, 0, 1⟩, ⟨2, 0, 5, 1200, 2, 2⟩] := rfl

example : calculate_sale_cost "AVERAGE"
    [⟨1, 0, 5, 1000, 5, 1⟩, ⟨2, 0, 5, 1200, 5, 2⟩] 8 = 8800 := by
  simp only [calculate_sale_cost]
  norm_num +decide [weightedAverageCost, unconsumed, roundAway]

/-! ### Helper lemmas about the allocation walk -/

theorem totalRemaining_cons (a : Lot) (t : List Lot) :
    totalRemaining (a :: t) = a.remainingQuantity + totalRemaining t := by
  simp [totalRemaining]

theorem specLotValuation_cons (a : Lot) (t : List Lot) :
    specLotValuation (a :: t) =
      (a.remainingQuantity : ℤ) * a.unitCost + specLotValuation t := by
  simp [specLotValuation]

theorem unconsumed_cons_pos {a : Lot} (t : List Lot) (h : 0 < a.remainingQuantity) :
    unconsumed (a :: t) = a :: unconsumed t := by
  simp [unconsumed, List.filter_cons, h]

theorem unconsumed_cons_zero {a : Lot} (t : List Lot) (h : ¬ 0 < a.remainingQuantity) :
    unconsumed (a :: t) = unconsumed t := by
  simp [unconsumed, List.filter_cons, h]

theorem totalRemaining_unconsumed (lots : List Lot) :
    totalRemaining (unconsumed lots) = totalRemaining lots := by
  induction lots with
  | nil => rfl
  | cons l rest ih =>
    by_cases h : 0 < l.remainingQuantity
    · rw [unconsumed_cons_pos rest h, totalRemaining_cons, totalRemaining_cons, ih]
    · have h0 : l.remainingQuantity = 0 := by omega
      rw [unconsumed_cons_zero rest h, totalRemaining_cons, ih, h0]
      omega

theorem specLotValuation_unconsumed (lots : List Lot) :
    specLotValuation (unconsumed lots) = specLotValuation lots := by
  induction lots with
  | nil => rfl
  | cons l rest ih =>
    by_cases h : 0 < l.remainingQuantity
    · rw [unconsumed_cons_pos rest h, specLotValuation_cons, specLotValuation_cons, ih]
    · have h0 : l.remainingQuantity = 0 := by omega
      rw [unconsumed_cons_zero rest h, specLotValuation_cons, ih, h0]
      simp

theorem totalRemaining_perm {l1 l2 : List Lot} (h : l1.Perm l2) :
    totalRemaining l1 = totalRemaining l2 :=
  List.Perm.sum_eq (h.map _)

theorem specLotValuation_perm {l1 l2 : List Lot} (h : l1.Perm l2) :
    specLotValuation l1 = specLotValuation l2 :=
  List.Perm.sum_eq (h.map _)

theorem mem_unconsumed_pos {lots : List Lot} {l : Lot} (h : l ∈ unconsumed lots) :
    0 < l.remainingQuantity := by
  simp only [unconsumed, List.mem_filter, decide_eq_true_eq] at h
  exact h.2

theorem mem_unconsumed_sub {lots : List Lot} {l : Lot} (h : l ∈ unconsumed lots) :
    l ∈ lots := by
  simp only [unconsumed, List.mem_filter] at h
  exact h.1

theorem orderedLots_perm (m : String) (lots : List Lot) :
    (orderedLots m lots).Perm (unconsumed lots) := by
  unfold orderedLots
  split_ifs <;> exact List.perm_insertionSort _ _

theorem sum_allocAmounts (need : ℕ) (ord : List Lot) :
    ((allocAmounts need ord).map (·.2)).sum = min need (totalRemaining ord) := by
  induction ord generalizing need with
  | nil => simp [allocAmounts, totalRemaining]
  | cons l rest ih =>
    simp only [allocAmounts, List.map_cons, List.sum_cons, totalRemaining]
    by_cases h : need - min l.remainingQuantity need = 0
    · simp only [h, if_true, List.map_nil, List.sum_nil]
      simp only [totalRemaining] at *
      omega
    · simp only [h, if_false, ih]
      simp only [totalRemaining] at *
      omega

theorem allocAmounts_full (need : ℕ) (ord : List Lot)
    (hpos : ∀ l ∈ ord, 0 < l.remainingQuantity)
    (hle : totalRemaining ord ≤ need) :
    allocAmounts need ord = ord.map fun l => (l.id, l.remainingQuantity) := by
  induction ord generalizing need with
  | nil => simp [allocAmounts]
  | cons l rest ih =>
    have hl : 0 < l.remainingQuantity := hpos l (List.mem_cons_self _ _)
    have hrest : ∀ x ∈ rest, 0 < x.remainingQuantity :=
      fun x hx => hpos x (List.mem_cons_of_mem _ hx)
    have hsum : l.remainingQuantity + totalRemaining rest ≤ need := by
      simpa [totalRemaining] using hle
    have hmin : min l.remainingQuantity need = l.remainingQuantity := by omega
    simp only [allocAmounts, hmin, List.map_cons]
    by_cases h : need - l.remainingQuantity = 0
    · have hz : totalRemaining rest = 0 := by omega
      have hnil : rest = [] := by
        cases rest with
        | nil => rfl
        | cons r rs =>
          have := hrest r (List.mem_cons_self _ _)
          simp only [totalRemaining, List.map_cons, List.sum_cons] at hz
          omega
      subst hnil
      simp [h]
    · rw [if_neg h, ih (need - l.remainingQuantity) hrest (by omega)]

theorem applyAlloc_eq_map (ps : List (ℕ × ℕ)) (lots : List Lot) :
    applyAlloc lots ps = lots.map fun l => ps.foldl (fun x p => applyOne p x) l := by
  induction ps generalizing lots with
  | nil => simp [applyAlloc]
  | cons p ps ih =>
    calc applyAlloc lots (p :: ps)
        = applyAlloc (lots.map (applyOne p)) ps := rfl
      _ = (lots.map (applyOne p)).map (fun l => ps.foldl (fun x q => applyOne q x) l) := ih _
      _ = lots.map fun l => (p :: ps).foldl (fun x q => applyOne q x) l := by
          rw [List.map_map]; rfl

theorem foldl_applyOne_of_not_mem (ps : List (ℕ × ℕ)) (l : Lot)
    (h : l.id ∉ ps.map (·.1)) :
    ps.foldl (fun x p => applyOne p x) l = l := by
  induction ps with
  | nil => rfl
  | cons p ps ih =>
    simp only [List.map_cons, List.mem_cons, not_or] at h
    have h1 : applyOne p l = l := by
      simp [applyOne, h.1]
    simp only [List.foldl_cons, h1]
    exact ih h.2

theorem foldl_applyOne_zero (ps : List (ℕ × ℕ)) (l : Lot)
    (hnd : (ps.map (·.1)).Nodup)
    (hmem : (l.id, l.remainingQuantity) ∈ ps) :
    (ps.foldl (fun x p => applyOne p x) l).remainingQuantity = 0 := by
  induction ps with
  | nil => cases hmem
  | cons p ps ih =>
    simp only [List.map_cons, List.nodup_cons] at hnd
    rcases List.mem_cons.mp hmem with heq | htail
    · have hp1 : p.1 = l.id := by rw [← heq]
      have hstep : applyOne p l =
          { l with remainingQuantity := l.remainingQuantity - p.2 } := by
        simp [applyOne, hp1]
      have hp2 : p.2 = l.remainingQuantity := by rw [← heq]
      have hid : ({ l with remainingQuantity := l.remainingQuantity - p.2 } : Lot).id = l.id := rfl
      simp only [List.foldl_cons, hstep]
      rw [foldl_applyOne_of_not_mem ps _ (by rw [hid, ← hp1]; exact hnd.1)]
      simp [hp2]
    · have hne : l.id ≠ p.1 := by
        intro hcontra
        exact hnd.1 (hcontra ▸ (List.mem_map.mpr ⟨_, htail, rfl⟩))
      have hstep : applyOne p l = l := by simp [applyOne, hne]
      simp only [List.foldl_cons, hstep]
      exact ih hnd.2 htail

theorem costLoop_total (need : ℕ) (acc : ℤ) (ord : List Lot)
    (hpos : ∀ l ∈ ord, 0 < l.remainingQuantity)
    (hlt : totalRemaining ord < need) :
    costLoop need acc ord = acc + specLotValuation ord := by
  induction ord generalizing need acc with
  | nil => simp [costLoop, specLotValuation]
  | cons l rest ih =>
    have hl : 0 < l.remainingQuantity := hpos l (List.mem_cons_self _ _)
    have hrest : ∀ x ∈ rest, 0 < x.remainingQuantity :=
      fun x hx => hpos x (List.mem_cons_of_mem _ hx)
    have hsum : l.remainingQuantity + totalRemaining rest < need := by
      rw [totalRemaining_cons] at hlt; omega
    have hmin : min l.remainingQuantity need = l.remainingQuantity := by omega
    have hne : ¬(need - l.remainingQuantity = 0) := by omega
    simp only [costLoop, hmin, hne, if_false]
    rw [ih (need - l.remainingQuantity) _ hrest (by omega), specLotValuation_cons]
    ring

theorem orderedLots_ids_nodup (m : String) (lots : List Lot)
    (h : (lots.map (·.id)).Nodup) :
    ((orderedLots m lots).map (·.id)).Nodup := by
  have h1 : List.Sublist ((unconsumed lots).map (·.id)) (lots.map (·.id)) :=
    (List.filter_sublist _).map _
  have h2 : ((unconsumed lots).map (·.id)).Nodup := h.sublist h1
  exact (((orderedLots_perm m lots).map (·.id)).nodup_iff).mpr h2

theorem mem_orderedLots_pos {m : String} {lots : List Lot} {l : Lot}
    (h : l ∈ orderedLots m lots) : 0 < l.remainingQuantity :=
  mem_unconsumed_pos ((orderedLots_perm m lots).mem_iff.mp h)

theorem totalRemaining_orderedLots (m : String) (lots : List Lot) :
    totalRemaining (orderedLots m lots) = totalRemaining lots :=
  (totalRemaining_perm (orderedLots_perm m lots)).trans (totalRemaining_unconsumed lots)

theorem calculate_sale_cost_fifo (lots : List Lot) (qty : ℕ) :
    calculate_sale_cost "FIFO" lots qty =
      costLoop qty 0 (List.insertionSort fifoLE (unconsumed lots)) := by
  simp [calculate_sale_cost]

theorem calculate_sale_cost_lifo (lots : List Lot) (qty : ℕ) :
    calculate_sale_cost "LIFO" lots qty =
      costLoop qty 0 (List.insertionSort lifoLE (unconsumed lots)) := by
  simp +decide [calculate_sale_cost]

theorem calculate_sale_cost_else (method : String) (lots : List Lot) (qty : ℕ)
    (h1 : method ≠ "FIFO") (h2 : method ≠ "LIFO") :
    calculate_sale_cost method lots qty = roundAway (weightedAverageCost lots) * qty := by
  simp [calculate_sale_cost, h1, h2]

theorem orderedLots_else (method : String) (lots : List Lot)
    (h1 : method ≠ "FIFO") (h2 : method ≠ "LIFO") :
    orderedLots method lots = List.insertionSort fifoLE (unconsumed lots) := by
  simp [orderedLots, h1, h2]

theorem allocate_insufficient (method : String) (lots : List Lot) (qty : ℕ)
    (h : totalRemaining lots < qty) :
    allocate_inventory_on_sale method lots qty =
      .error (.insufficientInventoryHistory (qty - totalRemaining lots)) := by
  have hsum : ((allocAmounts qty (orderedLots method lots)).map (·.2)).sum
      = totalRemaining lots := by
    rw [sum_allocAmounts, totalRemaining_orderedLots]
    omega
  simp only [allocate_inventory_on_sale]
  rw [hsum, if_pos (by omega)]

theorem allocate_exact (method : String) (lots : List Lot) (qty : ℕ)
    (hids : (lots.map (·.id)).Nodup) (h : qty = totalRemaining lots) :
    allocate_inventory_on_sale method lots qty =
      .ok (applyAlloc lots (allocAmounts qty (orderedLots method lots))) ∧
    ∀ l ∈ applyAlloc lots (allocAmounts qty (orderedLots method lots)),
      l.remainingQuantity = 0 := by
  have hfull : allocAmounts qty (orderedLots method lots) =
      (orderedLots method lots).map fun l => (l.id, l.remainingQuantity) :=
    allocAmounts_full _ _ (fun l hl => mem_orderedLots_pos hl)
      (by rw [totalRemaining_orderedLots]; omega)
  have hsum : ((allocAmounts qty (orderedLots method lots)).map (·.2)).sum = qty := by
    rw [sum_allocAmounts, totalRemaining_orderedLots]
    omega
  constructor
  · simp only [allocate_inventory_on_sale]
    rw [hsum, if_neg (by omega)]
  · intro l hl
    rw [applyAlloc_eq_map] at hl
    obtain ⟨l0, hl0, rfl⟩ := List.mem_map.mp hl
    by_cases hpos : 0 < l0.remainingQuantity
    · have hmem1 : l0 ∈ unconsumed lots := by
        simp [unconsumed, List.mem_filter, hl0, hpos]
      have hmem2 : l0 ∈ orderedLots method lots :=
        (orderedLots_perm method lots).mem_iff.mpr hmem1
      have hpmem : (l0.id, l0.remainingQuantity) ∈
          allocAmounts qty (orderedLots method lots) := by
        rw [hfull]
        exact List.mem_map.mpr ⟨l0, hmem2, rfl⟩
      have hnd : ((allocAmounts qty (orderedLots method lots)).map (·.1)).Nodup := by
        rw [hfull, List.map_map]
        simpa [Function.comp] using orderedLots_ids_nodup method lots hids
      exact foldl_applyOne_zero _ _ hnd hpmem
    · have hz : l0.remainingQuantity = 0 := by omega
      have hnotin : l0.id ∉ (allocAmounts qty (orderedLots method lots)).map (·.1) := by
        rw [hfull, List.map_map]
        intro hcontra
        obtain ⟨l2, hl2, heq⟩ := List.mem_map.mp hcontra
        have hl2lots : l2 ∈ lots :=
          mem_unconsumed_sub ((orderedLots_perm method lots).mem_iff.mp hl2)
        have hl2pos := mem_orderedLots_pos hl2
        have hid : l2.id = l0.id := by simpa [Function.comp] using heq
        have heq0 : l2 = l0 := List.inj_on_of_nodup_map hids hl2lots hl0 hid
        rw [heq0] at hl2pos
        omega
      rw [foldl_applyOne_of_not_mem _ _ hnotin]
      exact hz

theorem orderedLots_fifo (lots : List Lot) :
    orderedLots "FIFO" lots = List.insertionSort fifoLE (unconsumed lots) := by
  simp [orderedLots]

theorem weightedAverageCost_eq (lots : List Lot) (h : totalRemaining lots ≠ 0) :
    weightedAverageCost lots =
      (specLotValuation lots : ℚ) / (totalRemaining lots : ℚ) := by
  have hz : ¬ ((unconsumed lots).map (·.remainingQuantity)).sum = 0 := by
    have h2 := totalRemaining_unconsumed lots
    simp only [totalRemaining] at h2 h ⊢
    omega
  simp only [weightedAverageCost]
  rw [if_neg hz,
    show ((unconsumed lots).map fun l => (l.remainingQuantity : ℤ) * l.unitCost).sum
        = specLotValuation lots from specLotValuation_unconsumed lots,
    show ((unconsumed lots).map (·.remainingQuantity)).sum = totalRemaining lots from
      totalRemaining_unconsumed lots]

/-! ### The claims -/

/-- C2: allocating more than the ledger's total unconsumed quantity fails
with `insufficientInventoryHistory` carrying the shortfall and — the raise
aborting the transaction — leaves every lot unchanged; allocating exactly
the total unconsumed quantity succeeds and leaves every lot's
`remainingQuantity` at 0.  (Lot ids are distinct: they are a primary
key.) -/
theorem allocate_depletion_boundary (method : String) (lots : List Lot) (qty : ℕ)
    (hids : (lots.map (·.id)).Nodup) :
    (totalRemaining lots < qty →
        allocate_inventory_on_sale method lots qty =
          .error (.insufficientInventoryHistory (qty - totalRemaining lots)) ∧
        allocFinal method lots qty = lots) ∧
    (qty = totalRemaining lots →
        ∃ ls, allocate_inventory_on_sale method lots qty = .ok ls ∧
          ∀ l ∈ ls, l.remainingQuantity = 0) := by
  constructor
  · intro h
    refine ⟨allocate_insufficient method lots qty h, ?_⟩
    unfold allocFinal
    rw [allocate_insufficient method lots qty h]
  · intro h
    obtain ⟨h1, h2⟩ := allocate_exact method lots qty hids h
    exact ⟨_, h1, h2⟩

/-- Witness for C2 at lots (rem 2 at 10.00, rem 3 at 12.00) and quantity 5,
the exact depletion boundary. -/
theorem allocate_depletion_boundary_witness :
    (totalRemaining [⟨1, 0, 5, 1000, 2, 1⟩, ⟨2, 0, 5, 1200, 3, 2⟩] < 5 →
        allocate_inventory_on_sale "FIFO"
            [⟨1, 0, 5, 1000, 2, 1⟩, ⟨2, 0, 5, 1200, 3, 2⟩] 5 =
          .error (.insufficientInventoryHistory
            (5 - totalRemaining [⟨1, 0, 5, 1000, 2, 1⟩, ⟨2, 0, 5, 1200, 3, 2⟩])) ∧
        allocFinal "FIFO" [⟨1, 0, 5, 1000, 2, 1⟩, ⟨2, 0, 5, 1200, 3, 2⟩] 5 =
          [⟨1, 0, 5, 1000, 2, 1⟩, ⟨2, 0, 5, 1200, 3, 2⟩]) ∧
    (5 = totalRemaining [⟨1, 0, 5, 1000, 2, 1⟩, ⟨2, 0, 5, 1200, 3, 2⟩] →
        ∃ ls, allocate_inventory_on_sale "FIFO"
            [⟨1, 0, 5, 1000, 2, 1⟩, ⟨2, 0, 5, 1200, 3, 2⟩] 5 = .ok ls ∧
          ∀ l ∈ ls, l.remainingQuantity = 0) :=
  allocate_depletion_boundary "FIFO"
    [⟨1, 0, 5, 1000, 2, 1⟩, ⟨2, 0, 5, 1200, 3, 2⟩] 5 (by decide)

/-- C3 (amended): both orders are produced by a deterministic sort; on equal
`receivedAt` timestamps FIFO orders lots ascending by id, but LIFO orders
them DESCENDING by id (`ORDER BY purchased_at DESC, id DESC`), not
ascending as claimed. -/
theorem allocation_tiebreak_order (lots : List Lot) :
    (List.insertionSort fifoLE (unconsumed lots)).Pairwise
      (fun a b => a.purchasedAt = b.purchasedAt → a.id ≤ b.id) ∧
    (List.insertionSort lifoLE (unconsumed lots)).Pairwise
      (fun a b => a.purchasedAt = b.purchasedAt → b.id ≤ a.id) := by
  constructor
  · exact (List.sorted_insertionSort fifoLE (unconsumed lots)).imp
      (fun {a b} hab heq => by
        unfold fifoLE at hab
        rcases hab with hlt | ⟨ht, hle⟩
        · omega
        · exact hle)
  · exact (List.sorted_insertionSort lifoLE (unconsumed lots)).imp
      (fun {a b} hab heq => by
        unfold lifoLE at hab
        rcases hab with hlt | ⟨ht, hle⟩
        · omega
        · exact hle)

/-- C3 (counterexample): two lots with the same timestamp: FIFO lists lot 1
before lot 2, but LIFO lists lot 2 before lot 1 — equal-timestamp lots are
NOT ordered ascending by id under both policies. -/
theorem lifo_tiebreak_counterexample :
    (⟨1, 0, 1, 500, 1, 7⟩ : Lot).purchasedAt = (⟨2, 0, 1, 600, 1, 7⟩ : Lot).purchasedAt ∧
    (⟨1, 0, 1, 500, 1, 7⟩ : Lot).id < (⟨2, 0, 1, 600, 1, 7⟩ : Lot).id ∧
    List.insertionSort lifoLE (unconsumed [⟨1, 0, 1, 500, 1, 7⟩, ⟨2, 0, 1, 600, 1, 7⟩]) =
      [⟨2, 0, 1, 600, 1, 7⟩, ⟨1, 0, 1, 500, 1, 7⟩] ∧
    List.insertionSort fifoLE (unconsumed [⟨1, 0, 1, 500, 1, 7⟩, ⟨2, 0, 1, 600, 1, 7⟩]) =
      [⟨1, 0, 1, 500, 1, 7⟩, ⟨2, 0, 1, 600, 1, 7⟩] := by decide

/-- C4 (counterexample): with the stored policy value BOGUS — none of FIFO,
LIFO, AVERAGE — allocation does not fail with any UnknownPolicy error: it
silently proceeds (2 units are allocated) and the sale is costed by the
AVERAGE fallback branch. -/
theorem unknown_policy_counterexample :
    get_inventory_costing_method [("inventory_costing_method", "BOGUS")] = "BOGUS" ∧
    allocate_inventory_on_sale "BOGUS" [⟨1, 0, 5, 1000, 5, 1⟩] 2 =
      .ok [⟨1, 0, 5, 1000, 3, 1⟩] ∧
    calculate_sale_cost "BOGUS" [⟨1, 0, 5, 1000, 5, 1⟩] 2 = 2000 := by
  refine ⟨rfl, rfl, ?_⟩
  rw [calculate_sale_cost_else "BOGUS" _ _ (by decide) (by decide)]
  norm_num [weightedAverageCost, unconsumed, roundAway]

/-- C4 (amended): the code has no UnknownPolicy failure at all; every method
value other than FIFO and LIFO — unrecognized strings included — is costed
by the AVERAGE branch and allocated oldest-first exactly like FIFO, silently. -/
theorem unknown_policy_silently_defaults (method : String) (lots : List Lot) (qty : ℕ)
    (h1 : method ≠ "FIFO") (h2 : method ≠ "LIFO") :
    calculate_sale_cost method lots qty = calculate_sale_cost "AVERAGE" lots qty ∧
    allocate_inventory_on_sale method lots qty =
      allocate_inventory_on_sale "FIFO" lots qty := by
  constructor
  · rw [calculate_sale_cost_else method lots qty h1 h2,
      calculate_sale_cost_else "AVERAGE" lots qty (by decide) (by decide)]
  · simp only [allocate_inventory_on_sale]
    rw [orderedLots_else method lots h1 h2, orderedLots_fifo]

/-- Witness for C4's amended theorem at the unrecognized value BOGUS. -/
theorem unknown_policy_silently_defaults_witness :
    calculate_sale_cost "BOGUS" [⟨1, 0, 5, 1000, 5, 1⟩] 2 =
      calculate_sale_cost "AVERAGE" [⟨1, 0, 5, 1000, 5, 1⟩] 2 ∧
    allocate_inventory_on_sale "BOGUS" [⟨1, 0, 5, 1000, 5, 1⟩] 2 =
      allocate_inventory_on_sale "FIFO" [⟨1, 0, 5, 1000, 5, 1⟩] 2 :=
  unknown_policy_silently_defaults "BOGUS" [⟨1, 0, 5, 1000, 5, 1⟩] 2
    (by decide) (by decide)

/-- C5: under FIFO, with L1 (qty 5 at 10.00, t=1) and L2 (qty 5 at 12.00,
t=2), selling 8 units costs 86.00 (8600 cents), the recorded per-unit cost
basis is 10.75 (1075 cents), and allocation leaves L1 with 0 and L2 with 2
remaining. -/
theorem fifo_order_property :
    calculate_sale_cost "FIFO" [⟨1, 0, 5, 1000, 5, 1⟩, ⟨2, 0, 5, 1200, 5, 2⟩] 8 = 8600 ∧
    costPriceOf 8600 8 = 1075 ∧
    allocate_inventory_on_sale "FIFO" [⟨1, 0, 5, 1000, 5, 1⟩, ⟨2, 0, 5, 1200, 5, 2⟩] 8 =
      .ok [⟨1, 0, 5, 1000, 0, 1⟩, ⟨2, 0, 5, 1200, 2, 2⟩] := by
  refine ⟨by decide, ?_, rfl⟩
  norm_num [costPriceOf, roundAway]

/-- C6: under LIFO, with the same two lots, selling 8 units consumes all 5
of L2 and 3 of L1: total cost 90.00 (9000 cents), per-unit cost basis 11.25
(1125 cents), L2 left at 0 and L1 at 2 remaining. -/
theorem lifo_order_property :
    calculate_sale_cost "LIFO" [⟨1, 0, 5, 1000, 5, 1⟩, ⟨2, 0, 5, 1200, 5, 2⟩] 8 = 9000 ∧
    costPriceOf 9000 8 = 1125 ∧
    allocate_inventory_on_sale "LIFO" [⟨1, 0, 5, 1000, 5, 1⟩, ⟨2, 0, 5, 1200, 5, 2⟩] 8 =
      .ok [⟨1, 0, 5, 1000, 2, 1⟩, ⟨2, 0, 5, 1200, 0, 2⟩] := by
  refine ⟨by decide, ?_, rfl⟩
  norm_num [costPriceOf, roundAway]

/-- C7 (amended): for every positive quantity at most the total unconsumed
quantity, the AVERAGE branch first rounds the weighted unit cost
`sum(rem_i * cost_i) / sum(rem_i)` to whole cents (the `DECIMAL(10,2)`
assignment) and only then multiplies by the quantity: `totalCost =
roundAway(weightedUnitCost) * quantitySold`, not the rounding of the exact
product the claim states. -/
theorem average_cost_formula (lots : List Lot) (qty : ℕ)
    (h1 : 0 < qty) (h2 : qty ≤ totalRemaining lots) :
    calculate_sale_cost "AVERAGE" lots qty =
      roundAway ((specLotValuation lots : ℚ) / (totalRemaining lots : ℚ)) * qty := by
  rw [calculate_sale_cost_else "AVERAGE" lots qty (by decide) (by decide),
    weightedAverageCost_eq lots (by omega)]

/-- Witness for C7's amended theorem at the spec's own example: 8 units from
lots (5 at 10.00, 5 at 12.00) cost 88.00. -/
theorem average_cost_formula_witness :
    calculate_sale_cost "AVERAGE" [⟨1, 0, 5, 1000, 5, 1⟩, ⟨2, 0, 5, 1200, 5, 2⟩] 8 =
      roundAway ((specLotValuation [⟨1, 0, 5, 1000, 5, 1⟩, ⟨2, 0, 5, 1200, 5, 2⟩] : ℚ) /
        (totalRemaining [⟨1, 0, 5, 1000, 5, 1⟩, ⟨2, 0, 5, 1200, 5, 2⟩] : ℚ)) * 8 :=
  average_cost_formula [⟨1, 0, 5, 1000, 5, 1⟩, ⟨2, 0, 5, 1200, 5, 2⟩] 8
    (by decide) (by decide)

/-- C7 (counterexample): lots (rem 1 at 3.00, rem 2 at 4.00) have weighted
unit cost 11/3; for 3 units the claimed formula gives round2(11.00) =
11.00 (1100 cents) but the code returns 11.01 (1101 cents), because it
rounds the unit cost to 3.67 before multiplying. -/
theorem average_cost_counterexample :
    calculate_sale_cost "AVERAGE" [⟨1, 0, 1, 300, 1, 4⟩, ⟨2, 0, 2, 400, 2, 4⟩] 3 = 1101 ∧
    specAverageCost [⟨1, 0, 1, 300, 1, 4⟩, ⟨2, 0, 2, 400, 2, 4⟩] 3 = 1100 ∧
    (1101 : ℤ) ≠ 1100 := by
  refine ⟨?_, ?_, by decide⟩
  · rw [calculate_sale_cost_else "AVERAGE" _ _ (by decide) (by decide)]
    norm_num [weightedAverageCost, unconsumed, roundAway]
  · norm_num [specAverageCost, specLotValuation, totalRemaining, roundAway]

/-- C8: the FIFO branch of `calculate_inventory_value` does not value
unconsumed lots at their own costs.  After FIFO allocation has left L1 at 0
and L2 at 2 remaining (stock 2), `sum(remaining * unitCost)` is 24.00 but
the function returns 20.00: it allocates the current stock against the
lots' FULL quantities oldest-first, ignoring `remaining_quantity` (the
migration's own table has no such column).  On the repository doc's example
(INVENTORY-VALUATION-EXPLAINED.md: 20 in stock from receipts of 10 at
78000.00, 15 at 80000.00 and 8 at 82000.00) the doc states the FIFO value
Rs 1,616,000 but the function returns Rs 1,580,000 — the doc's LIFO
number. -/
theorem fifo_valuation_ignores_remaining :
    calculate_inventory_value_fifo 2 [⟨1, 0, 5, 1000, 0, 1⟩, ⟨2, 0, 5, 1200, 2, 2⟩] = 2000 ∧
    specLotValuation [⟨1, 0, 5, 1000, 0, 1⟩, ⟨2, 0, 5, 1200, 2, 2⟩] = 2400 ∧
    ((2000 : ℤ) ≠ 2400) ∧
    calculate_inventory_value_fifo 20
      [⟨1, 0, 10, 7800000, 0, 1⟩, ⟨2, 0, 15, 8000000, 12, 2⟩, ⟨3, 0, 8, 8200000, 8, 3⟩] =
      158000000 := by decide

/-- C9: changing the active policy touches no recorded sale line: reading a
recorded `cost_price` after any `setPolicy` returns exactly what was stored
at sale time; concretely, a sale of 8 units allocated under FIFO keeps its
recorded per-unit cost basis of 10.75 (1075 cents) after the policy is
switched to LIFO. -/
theorem policy_switch_non_retroactive :
    (∀ (s : ShopState) (p : String) (i : ℕ),
        readSaleCost (setPolicy s p) i = readSaleCost s i) ∧
    readSaleCost
      (setPolicy (saleFinal ⟨"FIFO", 10, 1000,
        [⟨1, 0, 5, 1000, 5, 1⟩, ⟨2, 0, 5, 1200, 5, 2⟩], []⟩ 7 8) "LIFO") 7 =
      some (costPriceOf (calculate_sale_cost "FIFO"
        [⟨1, 0, 5, 1000, 5, 1⟩, ⟨2, 0, 5, 1200, 5, 2⟩] 8) 8) ∧
    costPriceOf (calculate_sale_cost "FIFO"
      [⟨1, 0, 5, 1000, 5, 1⟩, ⟨2, 0, 5, 1200, 5, 2⟩] 8) 8 = 1075 := by
  refine ⟨fun s p i => rfl, rfl, ?_⟩
  show costPriceOf 8600 8 = 1075
  norm_num [costPriceOf, roundAway]

/-- C10 (amended): `calculate_sale_cost` is total and never signals
insufficiency; when the requested quantity exceeds the total unconsumed
quantity the FIFO and LIFO branches return the cost of only the available
units, while the AVERAGE branch prices the FULL requested quantity at the
rounded weighted average; the shortfall is detected only by
`allocate_inventory_on_sale`, which fails with the missing amount. -/
theorem calculate_sale_cost_no_insufficiency (method : String) (lots : List Lot)
    (qty : ℕ) (h : totalRemaining lots < qty) :
    calculate_sale_cost "FIFO" lots qty = specLotValuation lots ∧
    calculate_sale_cost "LIFO" lots qty = specLotValuation lots ∧
    calculate_sale_cost "AVERAGE" lots qty = roundAway (weightedAverageCost lots) * qty ∧
    allocate_inventory_on_sale method lots qty =
      .error (.insufficientInventoryHistory (qty - totalRemaining lots)) := by
  have hperm1 := List.perm_insertionSort fifoLE (unconsumed lots)
  have hperm2 := List.perm_insertionSort lifoLE (unconsumed lots)
  refine ⟨?_, ?_, calculate_sale_cost_else "AVERAGE" lots qty (by decide) (by decide),
    allocate_insufficient method lots qty h⟩
  · rw [calculate_sale_cost_fifo,
      costLoop_total qty 0 _ (fun l hl => mem_unconsumed_pos (hperm1.mem_iff.mp hl))
        (by rw [totalRemaining_perm hperm1, totalRemaining_unconsumed]; omega),
      specLotValuation_perm hperm1, specLotValuation_unconsumed, zero_add]
  · rw [calculate_sale_cost_lifo,
      costLoop_total qty 0 _ (fun l hl => mem_unconsumed_pos (hperm2.mem_iff.mp hl))
        (by rw [totalRemaining_perm hperm2, totalRemaining_unconsumed]; omega),
      specLotValuation_perm hperm2, specLotValuation_unconsumed, zero_add]

/-- Witness for C10's amended theorem: one lot of 2 remaining at 10.00 and a
request for 3 units. -/
theorem calculate_sale_cost_no_insufficiency_witness :
    calculate_sale_cost "FIFO" [⟨1, 0, 5, 1000, 2, 1⟩] 3 =
      specLotValuation [⟨1, 0, 5, 1000, 2, 1⟩] ∧
    calculate_sale_cost "LIFO" [⟨1, 0, 5, 1000, 2, 1⟩] 3 =
      specLotValuation [⟨1, 0, 5, 1000, 2, 1⟩] ∧
    calculate_sale_cost "AVERAGE" [⟨1, 0, 5, 1000, 2, 1⟩] 3 =
      roundAway (weightedAverageCost [⟨1, 0, 5, 1000, 2, 1⟩]) * 3 ∧
    allocate_inventory_on_sale "LIFO" [⟨1, 0, 5, 1000, 2, 1⟩] 3 =
      .error (.insufficientInventoryHistory (3 - totalRemaining [⟨1, 0, 5, 1000, 2, 1⟩])) :=
  calculate_sale_cost_no_insufficiency "LIFO" [⟨1, 0, 5, 1000, 2, 1⟩] 3 (by decide)

/-- C10 (counterexample): with one lot of 2 units remaining at 10.00 and a
request for 3, the AVERAGE branch returns 30.00 — the full requested
quantity priced at the average — not the 20.00 cost of only the available
units that the claim states for every policy. -/
theorem average_partial_total_counterexample :
    totalRemaining [⟨1, 0, 5, 1000, 2, 1⟩] < 3 ∧
    calculate_sale_cost "AVERAGE" [⟨1, 0, 5, 1000, 2, 1⟩] 3 = 3000 ∧
    specLotValuation [⟨1, 0, 5, 1000, 2, 1⟩] = 2000 ∧
    ((3000 : ℤ) ≠ 2000) := by
  refine ⟨by decide, ?_, by decide, by decide⟩
  rw [calculate_sale_cost_else "AVERAGE" _ _ (by decide) (by decide)]
  norm_num [weightedAverageCost, unconsumed, roundAway]

/-- C1: the ledger invariant `sum(remainingQuantity) = stock` holds after
product creation, and it is preserved by plain trigger-recorded stock
increases and by successful sale allocation — but the manual fallback path
of `updateProductStock` breaks it: its `UPDATE products SET stock = stock +
additionalStock` fires the `record_purchase_on_stock_increase` trigger
(one lot of `additionalStock`) and the fallback then inserts a second
identical lot itself, so a restock of 3 on a consistent product with stock
5 yields stock 8 but lots summing to 11. -/
theorem updateProductStock_fallback_breaks_invariant :
    invariantHolds (record_initial_inventory_purchase "FIFO" 5 1000 1 0) ∧
    (updateProductStock_fallback
      (record_initial_inventory_purchase "FIFO" 5 1000 1 0) 3 2 3 1).stock = 8 ∧
    totalRemaining (updateProductStock_fallback
      (record_initial_inventory_purchase "FIFO" 5 1000 1 0) 3 2 3 1).lots = 11 ∧
    ¬ invariantHolds (updateProductStock_fallback
      (record_initial_inventory_purchase "FIFO" 5 1000 1 0) 3 2 3 1) := by
  decide
